import Mathlib

/-!
Shallow embedding of the egg-price-tracker service (src/main.go) and its
parameterized SQL queries over PostgreSQL.

Modelling conventions:
* `float64` prices are modelled as exact rationals `ℚ`; the arithmetic the
  claims concern (subtraction, division, scaling by 100) is exact there.
* `date` columns are modelled as the strings the service passes around,
  ordered lexicographically (which coincides with DATE order on the
  ISO-8601 dates the system uses).
* SQL result sets are lists; `ORDER BY` is insertion sort by the stated key;
  `LIMIT n` is `List.take`; a negative SQL LIMIT is a query error
  (PostgreSQL: "LIMIT must not be negative"), surfaced by the handlers as an
  internal (5xx) error exactly as `db.Query` errors are in the Go code.
* An HTTP handler is a function of the decoded request and the store state,
  returning the response together with the store state after the request.
-/

namespace EggTracker

/-- Row of the `egg_prices` table / the `EggPrice` JSON struct of main.go. -/
structure EggPrice where
  id : Nat
  date : String
  location : String
  pricePerDozen : ℚ
  source : String
  createdAt : String
deriving DecidableEq, Repr

/-- Row of the `locations` table / the `Location` JSON struct of main.go. -/
structure Location where
  id : Nat
  name : String
  type : String
deriving DecidableEq, Repr

/-- The `PriceComparison` JSON struct of main.go. -/
structure PriceComparison where
  location : String
  currentPrice : ℚ
  nationalPrice : ℚ
  difference : ℚ
  percentage : ℚ
deriving DecidableEq, Repr

/-- Database state: the two tables, plus the id-generation counter of the
`egg_prices` table. -/
structure Store where
  rows : List EggPrice
  locs : List Location
  nextId : Nat
deriving DecidableEq, Repr

/-- Outcome of a handler, abstracting the HTTP status classes main.go uses:
`ok` (200 + JSON body), `clientError` (http.StatusBadRequest),
`serverError` (http.StatusInternalServerError). -/
inductive HttpResult (α : Type) where
  | ok (body : α)
  | clientError (msg : String)
  | serverError (msg : String)
deriving DecidableEq, Repr

/-- Decimal value of a digit run; `none` on a non-digit. Helper for `atoi?`. -/
def digitsValAux : List Char → Nat → Option Nat
  | [], acc => some acc
  | c :: cs, acc =>
    if c.isDigit then digitsValAux cs (acc * 10 + (c.toNat - '0'.toNat))
    else none

/-- Decimal value of a non-empty digit run; `none` on empty or non-digit. -/
def digitsVal? : List Char → Option Nat
  | [] => none
  | l => digitsValAux l 0

/-- Go's `strconv.Atoi` on a 64-bit platform: optional single leading sign,
then at least one decimal digit, nothing else, and the value must fit in a
signed 64-bit int (out of range is an error, and main.go treats every
non-nil error alike). -/
def atoi? (s : String) : Option Int :=
  let signed : List Char → Bool → Option Int := fun ds neg =>
    (digitsVal? ds).bind fun n =>
      let v : Int := if neg then -(n : Int) else (n : Int)
      if -(2 ^ 63) ≤ v ∧ v < 2 ^ 63 then some v else none
  match s.data with
  | '+' :: rest => signed rest false
  | '-' :: rest => signed rest true
  | l => signed l false

/-- The `WHERE location = $1` filter of getPricesHandler's query: applied
only when a location parameter was supplied (non-empty string). -/
def queryRows (rows : List EggPrice) (loc : String) : List EggPrice :=
  if loc = "" then rows else rows.filter fun p => p.location = loc

/-- Insert one row into a list sorted by date descending. Dates are compared
as their character lists, which is exactly the lexicographic string order
(`String.le_iff_toList_le`) and coincides with DATE order on ISO dates. -/
def insertByDateDesc (p : EggPrice) : List EggPrice → List EggPrice
  | [] => [p]
  | q :: qs => if q.date.data ≤ p.date.data then p :: q :: qs else q :: insertByDateDesc p qs

/-- `ORDER BY date DESC` as insertion sort. -/
def sortByDateDesc : List EggPrice → List EggPrice
  | [] => []
  | p :: ps => insertByDateDesc p (sortByDateDesc ps)

/-- The SELECT of getPricesHandler: optional location filter,
`ORDER BY date DESC LIMIT n`. A negative LIMIT is a PostgreSQL query error. -/
def dbSelectPrices (rows : List EggPrice) (loc : String) (n : Int) :
    Except String (List EggPrice) :=
  if n < 0 then .error "pq: LIMIT must not be negative"
  else .ok ((sortByDateDesc (queryRows rows loc)).take n.toNat)

/-- How getPricesHandler surfaces the query outcome: a query error becomes an
internal error, rows become the 200 body. -/
def dbResultToHttp : Except String (List EggPrice) → HttpResult (List EggPrice)
  | .error e => .serverError e
  | .ok l => .ok l

/-- getPricesHandler of main.go. `loc` and `lim` are the raw query-string
values as Go's `r.URL.Query().Get` returns them (empty string when the
parameter is absent). Empty limit defaults to "30"; an unparseable limit is
a 400 before any query; otherwise the query result is forwarded. -/
def getPricesHandler (loc lim : String) (s : Store) :
    HttpResult (List EggPrice) × Store :=
  let lim := if lim = "" then "30" else lim
  match atoi? lim with
  | none => (.clientError "Invalid limit parameter", s)
  | some n => (dbResultToHttp (dbSelectPrices s.rows loc n), s)

/-- Insert one location into a list sorted by name ascending. -/
def insertByNameAsc (l : Location) : List Location → List Location
  | [] => [l]
  | q :: qs => if l.name.data ≤ q.name.data then l :: q :: qs else q :: insertByNameAsc l qs

/-- `ORDER BY name` as insertion sort. -/
def sortByNameAsc : List Location → List Location
  | [] => []
  | l :: ls => insertByNameAsc l (sortByNameAsc ls)

/-- getLocationsHandler of main.go: `SELECT id, name, type FROM locations
ORDER BY name`, a pure read. -/
def getLocationsHandler (s : Store) : HttpResult (List Location) × Store :=
  (.ok (sortByNameAsc s.locs), s)

/-- The INSERT of addPriceHandler, `INSERT INTO egg_prices (date, location,
price_per_dozen, source) VALUES ($1,$2,$3,$4) RETURNING id`.

Modelled from the spec: `schema.sql` is not among the sources, so the
table's column defaults are taken from spec §3, which says `id` is
generated and unique and `created_at` is a server-assigned timestamp; the
INSERT omits both, so the row receives the generated id and the server
clock value `now`. Returns the new store and the generated id. -/
def dbInsertPrice (s : Store) (now date loc : String) (price : ℚ)
    (src : String) : Store × Nat :=
  (⟨s.rows ++ [⟨s.nextId, date, loc, price, src, now⟩], s.locs, s.nextId + 1⟩,
   s.nextId)

/-- addPriceHandler of main.go. `body` is the result of decoding the JSON
request body into the `EggPrice` struct (`none` when decoding fails; absent
JSON fields decode to Go zero values, i.e. empty strings / 0). `writeOk`
says whether the store write succeeds; `now` is the server clock at the
insert. On success the handler echoes the decoded struct with only its `id`
overwritten by the RETURNING value. -/
def addPriceHandler (body : Option EggPrice) (writeOk : Bool) (now : String)
    (s : Store) : HttpResult EggPrice × Store :=
  match body with
  | none => (.clientError "invalid character in request body", s)
  | some p =>
    if writeOk then
      let (s2, newId) := dbInsertPrice s now p.date p.location p.pricePerDozen p.source
      (.ok { p with id := newId }, s2)
    else (.serverError "pq: insert failed", s)

/-- The candidate set PostgreSQL may pick from when getComparisonHandler's
`SELECT DISTINCT ON (location) … ORDER BY location, date DESC` keeps one row
per location: any row of the location whose date is maximal for that
location. (The ORDER BY constrains only the date, so among rows sharing the
maximal date the kept row is unpredictable.) -/
def IsLatestFor (rows : List EggPrice) (loc : String) (r : EggPrice) : Prop :=
  r ∈ rows ∧ r.location = loc ∧
    ∀ q ∈ rows, q.location = loc → q.date.data ≤ r.date.data

/-- One resolved execution of the `latest_prices` CTE for one location: the
row of `loc` with maximal date, the earliest-stored row winning ties. `none`
when the location has no row. -/
def latestObs (loc : String) : List EggPrice → Option EggPrice
  | [] => none
  | r :: rest =>
    let tail := latestObs loc rest
    if r.location = loc then
      match tail with
      | none => some r
      | some b => if r.date.data < b.date.data then some b else some r
    else tail

/-- Insert a location name into an ascending duplicate-free list. -/
def insertLoc (x : String) : List String → List String
  | [] => [x]
  | y :: ys =>
    if x = y then y :: ys
    else if x.data < y.data then x :: y :: ys
    else y :: insertLoc x ys

/-- The distinct location names appearing in the rows, ascending: the set of
groups `DISTINCT ON (location)` produces, in the query's output order. -/
def locationsSorted : List EggPrice → List String
  | [] => []
  | r :: rest => insertLoc r.location (locationsSorted rest)

/-- Build one comparison record the way getComparisonHandler's scan loop
does: difference is always computed; percentage only when the national
price is positive, otherwise it stays at the zero value. -/
def mkComparison (loc : String) (cur nat : ℚ) : PriceComparison :=
  { location := loc
    currentPrice := cur
    nationalPrice := nat
    difference := cur - nat
    percentage := if 0 < nat then (cur - nat) / nat * 100 else 0 }

/-- getComparisonHandler's query plus its scan loop: latest price per
location, cross-joined with the latest NATIONAL price (empty subquery ⇒ no
rows), NATIONAL itself filtered out, ordered by location ascending. -/
def getComparison (rows : List EggPrice) : List PriceComparison :=
  match latestObs "NATIONAL" rows with
  | none => []
  | some nat =>
    ((locationsSorted rows).filter fun loc => loc ≠ "NATIONAL").filterMap
      fun loc => (latestObs loc rows).map
        fun r => mkComparison loc r.pricePerDozen nat.pricePerDozen

/-- getComparisonHandler of main.go: a pure read. -/
def getComparisonHandler (s : Store) : HttpResult (List PriceComparison) × Store :=
  (.ok (getComparison s.rows), s)

/-! ### Concrete stores and records used in witnesses and counterexamples -/

/-- The spec §8 seed row for the NATIONAL baseline, price 2.00. -/
def exNational : EggPrice :=
  ⟨1, "2024-01-15", "NATIONAL", 2, "seed", "2024-01-15T00:00:00Z"⟩

/-- The spec §8 seed row for California, price 2.50. -/
def exCalifornia : EggPrice :=
  ⟨2, "2024-01-15", "California", 5/2, "seed", "2024-01-15T00:00:00Z"⟩

/-- A store holding the two §8 seed rows. -/
def exStore : Store := ⟨[exNational, exCalifornia], [], 3⟩

/-- A store with a local observation but no NATIONAL baseline. -/
def exStoreNoNational : Store := ⟨[exCalifornia], [], 3⟩

/-- The comparison record the §8 scenario expects for California. -/
def exCaliforniaCmp : PriceComparison := mkComparison "California" (5/2) 2

/-- One of two Texas observations sharing the maximal date 2024-01-15. -/
def exTexasA : EggPrice := ⟨2, "2024-01-15", "Texas", 3, "storeA", "t"⟩

/-- The other Texas observation with the same maximal date, other price. -/
def exTexasB : EggPrice := ⟨3, "2024-01-15", "Texas", 5, "storeB", "t"⟩

/-- Rows with a NATIONAL baseline and two date-tied Texas observations. -/
def exTieRows : List EggPrice := [exNational, exTexasA, exTexasB]

/-- A decoded POST body whose JSON carried no created_at field, so the Go
struct keeps the zero value there. -/
def exPayload : EggPrice := ⟨0, "2024-01-15", "California", 49/20, "Local Market", ""⟩

/-- The empty store. -/
def emptyStore : Store := ⟨[], [], 1⟩

/-! ### Lemmas about the ORDER BY models -/

theorem mem_insertByDateDesc {a p : EggPrice} {l : List EggPrice} :
    a ∈ insertByDateDesc p l ↔ a = p ∨ a ∈ l := by
  induction l with
  | nil => simp [insertByDateDesc]
  | cons q qs ih =>
    by_cases hq : q.date.data ≤ p.date.data
    · rw [insertByDateDesc, if_pos hq]
      simp only [List.mem_cons]
    · rw [insertByDateDesc, if_neg hq]
      simp only [List.mem_cons, ih]
      tauto

theorem pairwise_insertByDateDesc {p : EggPrice} {l : List EggPrice}
    (h : l.Pairwise fun a b => b.date.data ≤ a.date.data) :
    (insertByDateDesc p l).Pairwise fun a b => b.date.data ≤ a.date.data := by
  induction l with
  | nil => simp [insertByDateDesc]
  | cons q qs ih =>
    rw [List.pairwise_cons] at h
    by_cases hq : q.date.data ≤ p.date.data
    · rw [insertByDateDesc, if_pos hq, List.pairwise_cons]
      refine ⟨?_, List.pairwise_cons.mpr h⟩
      intro b hb
      rcases List.mem_cons.mp hb with hbq | hbqs
      · exact hbq ▸ hq
      · exact le_trans (h.1 b hbqs) hq
    · rw [insertByDateDesc, if_neg hq, List.pairwise_cons]
      refine ⟨?_, ih h.2⟩
      intro b hb
      rcases mem_insertByDateDesc.mp hb with hbp | hbqs
      · exact hbp ▸ le_of_not_le hq
      · exact h.1 b hbqs

theorem mem_sortByDateDesc {a : EggPrice} {l : List EggPrice} :
    a ∈ sortByDateDesc l ↔ a ∈ l := by
  induction l with
  | nil => simp [sortByDateDesc]
  | cons p ps ih => simp [sortByDateDesc, mem_insertByDateDesc, ih]

theorem pairwise_sortByDateDesc (l : List EggPrice) :
    (sortByDateDesc l).Pairwise fun a b => b.date.data ≤ a.date.data := by
  induction l with
  | nil => simp [sortByDateDesc]
  | cons p ps ih => exact pairwise_insertByDateDesc ih

theorem mem_insertLoc {x y : String} {l : List String} :
    x ∈ insertLoc y l ↔ x = y ∨ x ∈ l := by
  induction l with
  | nil => simp [insertLoc]
  | cons z zs ih =>
    by_cases hy : y = z
    · rw [insertLoc, if_pos hy]
      subst hy
      simp only [List.mem_cons]
      tauto
    · by_cases hlt : y.data < z.data
      · rw [insertLoc, if_neg hy, if_pos hlt]
        simp only [List.mem_cons]
      · rw [insertLoc, if_neg hy, if_neg hlt]
        simp only [List.mem_cons, ih]
        tauto

theorem pairwise_insertLoc {y : String} {l : List String}
    (h : l.Pairwise fun a b => a.data < b.data) :
    (insertLoc y l).Pairwise fun a b => a.data < b.data := by
  induction l with
  | nil => simp [insertLoc]
  | cons z zs ih =>
    rw [List.pairwise_cons] at h
    by_cases hy : y = z
    · subst hy
      rw [insertLoc, if_pos rfl, List.pairwise_cons]
      exact h
    · by_cases hlt : y.data < z.data
      · rw [insertLoc, if_neg hy, if_pos hlt, List.pairwise_cons]
        refine ⟨?_, List.pairwise_cons.mpr h⟩
        intro b hb
        rcases List.mem_cons.mp hb with hbz | hbzs
        · exact hbz ▸ hlt
        · exact lt_trans hlt (h.1 b hbzs)
      · rw [insertLoc, if_neg hy, if_neg hlt, List.pairwise_cons]
        refine ⟨?_, ih h.2⟩
        intro b hb
        rcases mem_insertLoc.mp hb with hby | hbzs
        · refine hby ▸ lt_of_le_of_ne (le_of_not_lt hlt) ?_
          intro hdata
          exact hy (String.toList_inj.mp hdata.symm)
        · exact h.1 b hbzs

theorem mem_locationsSorted {x : String} {rows : List EggPrice} :
    x ∈ locationsSorted rows ↔ ∃ r ∈ rows, r.location = x := by
  induction rows with
  | nil => simp [locationsSorted]
  | cons r rest ih =>
    simp only [locationsSorted, mem_insertLoc, ih, List.mem_cons]
    constructor
    · rintro (hx | ⟨q, hq, hqx⟩)
      · exact ⟨r, Or.inl rfl, hx.symm⟩
      · exact ⟨q, Or.inr hq, hqx⟩
    · rintro ⟨q, hq | hq, hqx⟩
      · exact Or.inl (hq ▸ hqx.symm)
      · exact Or.inr ⟨q, hq, hqx⟩

theorem pairwise_locationsSorted (rows : List EggPrice) :
    (locationsSorted rows).Pairwise fun a b => a.data < b.data := by
  induction rows with
  | nil => simp [locationsSorted]
  | cons r rest ih => exact pairwise_insertLoc ih

/-! ### Lemmas about the latest-price selection -/

theorem latestObs_eq_none_iff {loc : String} {rows : List EggPrice} :
    latestObs loc rows = none ↔ ∀ r ∈ rows, r.location ≠ loc := by
  induction rows with
  | nil => simp [latestObs]
  | cons q rest ih =>
    simp only [latestObs]
    by_cases hq : q.location = loc
    · rw [if_pos hq]
      constructor
      · intro h
        exfalso
        cases htail : latestObs loc rest with
        | none => rw [htail] at h; exact Option.noConfusion h
        | some b =>
          rw [htail] at h
          replace h : (if q.date.data < b.date.data then some b else some q) = none := h
          by_cases hd : q.date.data < b.date.data
          · rw [if_pos hd] at h; exact Option.noConfusion h
          · rw [if_neg hd] at h; exact Option.noConfusion h
      · intro h
        exact absurd hq (h q (List.mem_cons_self q rest))
    · rw [if_neg hq, ih]
      constructor
      · intro h r hr
        rcases List.mem_cons.mp hr with h1 | h2
        · exact h1 ▸ hq
        · exact h r h2
      · intro h r hr
        exact h r (List.mem_cons_of_mem q hr)

theorem latestObs_isSome_of {loc : String} {rows : List EggPrice}
    (h : ∃ r ∈ rows, r.location = loc) : ∃ b, latestObs loc rows = some b := by
  cases hlo : latestObs loc rows with
  | none =>
    obtain ⟨r, hr, hloc⟩ := h
    exact absurd hloc (latestObs_eq_none_iff.mp hlo r hr)
  | some b => exact ⟨b, rfl⟩

theorem latestObs_isLatestFor {loc : String} {rows : List EggPrice} {r : EggPrice}
    (h : latestObs loc rows = some r) : IsLatestFor rows loc r := by
  induction rows generalizing r with
  | nil => exact Option.noConfusion h
  | cons q rest ih =>
    simp only [latestObs] at h
    by_cases hq : q.location = loc
    · rw [if_pos hq] at h
      cases htail : latestObs loc rest with
      | none =>
        rw [htail] at h
        obtain rfl : q = r := Option.some.inj h
        refine ⟨List.mem_cons_self q rest, hq, ?_⟩
        intro p hp hploc
        rcases List.mem_cons.mp hp with h1 | h2
        · exact h1 ▸ le_refl _
        · exact absurd hploc (latestObs_eq_none_iff.mp htail p h2)
      | some b =>
        rw [htail] at h
        replace h : (if q.date.data < b.date.data then some b else some q) = some r := h
        have hb := ih htail
        by_cases hd : q.date.data < b.date.data
        · rw [if_pos hd] at h
          obtain rfl : b = r := Option.some.inj h
          refine ⟨List.mem_cons_of_mem q hb.1, hb.2.1, ?_⟩
          intro p hp hploc
          rcases List.mem_cons.mp hp with h1 | h2
          · exact h1 ▸ le_of_lt hd
          · exact hb.2.2 p h2 hploc
        · rw [if_neg hd] at h
          obtain rfl : q = r := Option.some.inj h
          refine ⟨List.mem_cons_self q rest, hq, ?_⟩
          intro p hp hploc
          rcases List.mem_cons.mp hp with h1 | h2
          · exact h1 ▸ le_refl _
          · exact le_trans (hb.2.2 p h2 hploc) (le_of_not_lt hd)
    · rw [if_neg hq] at h
      have hb := ih h
      refine ⟨List.mem_cons_of_mem q hb.1, hb.2.1, ?_⟩
      intro p hp hploc
      rcases List.mem_cons.mp hp with h1 | h2
      · exact absurd (h1 ▸ hploc) hq
      · exact hb.2.2 p h2 hploc

/-- Over a block of qualifying locations, the filterMap of
getComparisonHandler's output loop produces exactly one record per location,
carrying that location name. -/
theorem map_location_filterMap (rows : List EggPrice) (natP : ℚ)
    (L : List String) (hL : ∀ loc ∈ L, ∃ b, latestObs loc rows = some b) :
    (List.map PriceComparison.location
      (L.filterMap fun loc => (latestObs loc rows).map
        fun r => mkComparison loc r.pricePerDozen natP)) = L := by
  induction L with
  | nil => rfl
  | cons x xs ih =>
    obtain ⟨b, hb⟩ := hL x (List.mem_cons_self x xs)
    rw [List.filterMap_cons]
    rw [hb]
    simp only [Option.map_some', List.map_cons]
    rw [ih fun loc hloc => hL loc (List.mem_cons_of_mem x hloc)]
    rfl

/-- Field-level contract of a built comparison record. -/
theorem mkComparison_props (loc : String) (cur natP : ℚ) :
    (mkComparison loc cur natP).difference = cur - natP ∧
    (0 < natP → (mkComparison loc cur natP).percentage = (cur - natP) / natP * 100) ∧
    (natP ≤ 0 → (mkComparison loc cur natP).percentage = 0) := by
  refine ⟨rfl, fun h => ?_, fun h => ?_⟩
  · show (if 0 < natP then (cur - natP) / natP * 100 else 0) = _
    rw [if_pos h]
  · show (if 0 < natP then (cur - natP) / natP * 100 else 0) = 0
    rw [if_neg (not_lt.mpr h)]

/-- A successful listing means the limit parsed to a non-negative value and
the body is the sorted, filtered row list truncated at that value. -/
theorem getPricesHandler_ok {s : Store} {locP limP : String} {n : Int}
    {l : List EggPrice}
    (hat : atoi? (if limP = "" then "30" else limP) = some n)
    (hok : (getPricesHandler locP limP s).1 = .ok l) :
    0 ≤ n ∧ l = (sortByDateDesc (queryRows s.rows locP)).take n.toNat := by
  simp only [getPricesHandler] at hok
  rw [hat] at hok
  replace hok : dbResultToHttp (dbSelectPrices s.rows locP n) = .ok l := hok
  unfold dbSelectPrices at hok
  by_cases hneg : n < 0
  · rw [if_pos hneg] at hok
    exact HttpResult.noConfusion hok
  · rw [if_neg hneg] at hok
    exact ⟨not_lt.mp hneg, (HttpResult.ok.inj hok).symm⟩

/-! ### The claims -/

/-- C1: every record the comparison operation produces satisfies
difference = current − national; percentage = difference / national × 100
whenever the national price is positive; with a non-positive national price
the percentage is left at zero while the record is still produced. -/
theorem claim_C1_comparison_arithmetic (s : Store) (c : PriceComparison)
    (hc : c ∈ getComparison s.rows) :
    c.difference = c.currentPrice - c.nationalPrice ∧
    (0 < c.nationalPrice →
      c.percentage = (c.currentPrice - c.nationalPrice) / c.nationalPrice * 100) ∧
    (c.nationalPrice ≤ 0 → c.percentage = 0) := by
  unfold getComparison at hc
  cases hn : latestObs "NATIONAL" s.rows with
  | none =>
    rw [hn] at hc
    exact absurd hc (List.not_mem_nil c)
  | some nb =>
    rw [hn] at hc
    obtain ⟨loc, _, hf⟩ := List.mem_filterMap.mp hc
    obtain ⟨r, _, hmk⟩ := Option.map_eq_some'.mp hf
    subst hmk
    refine ⟨rfl, fun hpos => ?_, fun hnp => ?_⟩
    · exact (mkComparison_props loc r.pricePerDozen nb.pricePerDozen).2.1 hpos
    · exact (mkComparison_props loc r.pricePerDozen nb.pricePerDozen).2.2 hnp

/-- Witness for C1: the §8 seed store produces the California record and it
satisfies the arithmetic contract. -/
theorem claim_C1_witness :
    exCaliforniaCmp ∈ getComparison exStore.rows ∧
    (exCaliforniaCmp.difference =
        exCaliforniaCmp.currentPrice - exCaliforniaCmp.nationalPrice ∧
      (0 < exCaliforniaCmp.nationalPrice →
        exCaliforniaCmp.percentage =
          (exCaliforniaCmp.currentPrice - exCaliforniaCmp.nationalPrice) /
            exCaliforniaCmp.nationalPrice * 100) ∧
      (exCaliforniaCmp.nationalPrice ≤ 0 → exCaliforniaCmp.percentage = 0)) := by
  have hmem : exCaliforniaCmp ∈ getComparison exStore.rows := by
    rw [show getComparison exStore.rows = [exCaliforniaCmp] from rfl]
    exact List.mem_singleton.mpr rfl
  exact ⟨hmem, claim_C1_comparison_arithmetic exStore exCaliforniaCmp hmem⟩

/-- C2 fails as stated: with no NATIONAL observation stored, California
qualifies (distinct from NATIONAL and observed) yet the comparison outputs
no record at all, rather than exactly one record for it. -/
theorem claim_C2_counterexample :
    ("California" ≠ "NATIONAL" ∧
      ∃ r ∈ exStoreNoNational.rows, r.location = "California") ∧
    getComparison exStoreNoNational.rows = [] :=
  ⟨⟨by decide, by decide⟩, rfl⟩

/-- C2 (amended): when the store holds a NATIONAL observation, the
comparison output has exactly one record per other observed location: its
location list is strictly ascending (hence duplicate-free), omits NATIONAL,
and contains precisely the observed non-NATIONAL locations. Without a
NATIONAL observation the output is empty instead (see C3). -/
theorem claim_C2_one_record_per_location (s : Store)
    (hnat : ∃ r ∈ s.rows, r.location = "NATIONAL") :
    (((getComparison s.rows).map PriceComparison.location).Pairwise (· < ·) ∧
      ((getComparison s.rows).map PriceComparison.location).Nodup) ∧
    "NATIONAL" ∉ (getComparison s.rows).map PriceComparison.location ∧
    ∀ loc, loc ∈ (getComparison s.rows).map PriceComparison.location ↔
      loc ≠ "NATIONAL" ∧ ∃ r ∈ s.rows, r.location = loc := by
  obtain ⟨nb, hnb⟩ := latestObs_isSome_of hnat
  have hmap : (getComparison s.rows).map PriceComparison.location =
      (locationsSorted s.rows).filter fun loc => loc ≠ "NATIONAL" := by
    unfold getComparison
    rw [hnb]
    exact map_location_filterMap s.rows nb.pricePerDozen _
      fun loc hloc =>
        latestObs_isSome_of (mem_locationsSorted.mp (List.mem_of_mem_filter hloc))
  have hpw : ((getComparison s.rows).map PriceComparison.location).Pairwise
      fun a b => a.data < b.data := by
    rw [hmap]
    exact (pairwise_locationsSorted s.rows).filter _
  have hpwStr : ((getComparison s.rows).map PriceComparison.location).Pairwise
      (· < ·) :=
    hpw.imp fun h => String.lt_iff_toList_lt.mpr h
  refine ⟨⟨hpwStr, hpwStr.imp fun h => ne_of_lt h⟩, ?_, ?_⟩
  · rw [hmap]
    intro hmem
    have := List.of_mem_filter hmem
    simp at this
  · intro loc
    rw [hmap, List.mem_filter, mem_locationsSorted]
    constructor
    · rintro ⟨hmem, hne⟩
      exact ⟨by simpa using hne, hmem⟩
    · rintro ⟨hne, hmem⟩
      exact ⟨hmem, by simpa using hne⟩

/-- Witness for the amended C2 at the §8 seed store. -/
theorem claim_C2_witness :
    (∃ r ∈ exStore.rows, r.location = "NATIONAL") ∧
    ((((getComparison exStore.rows).map PriceComparison.location).Pairwise
        (· < ·) ∧
      ((getComparison exStore.rows).map PriceComparison.location).Nodup) ∧
    "NATIONAL" ∉ (getComparison exStore.rows).map PriceComparison.location ∧
    ∀ loc, loc ∈ (getComparison exStore.rows).map PriceComparison.location ↔
      loc ≠ "NATIONAL" ∧ ∃ r ∈ exStore.rows, r.location = loc) :=
  ⟨by decide, claim_C2_one_record_per_location exStore (by decide)⟩

/-- C3: with no NATIONAL observation in the store, the comparison operation
succeeds and returns the empty record list, whatever the other rows are. -/
theorem claim_C3_no_national_gives_empty (s : Store)
    (h : ∀ r ∈ s.rows, r.location ≠ "NATIONAL") :
    (getComparisonHandler s).1 = .ok [] ∧ getComparison s.rows = [] := by
  have hn : latestObs "NATIONAL" s.rows = none := latestObs_eq_none_iff.mpr h
  have he : getComparison s.rows = [] := by
    unfold getComparison
    rw [hn]
  refine ⟨?_, he⟩
  rw [show (getComparisonHandler s).1 = .ok (getComparison s.rows) from rfl, he]

/-- Witness for C3: a store with only a California row. -/
theorem claim_C3_witness :
    (∀ r ∈ exStoreNoNational.rows, r.location ≠ "NATIONAL") ∧
    (getComparisonHandler exStoreNoNational).1 = .ok [] :=
  ⟨by decide, (claim_C3_no_national_gives_empty exStoreNoNational (by decide)).1⟩

/-- C4 fails on the code: getComparisonHandler's query orders only by
(location, date DESC), so when two rows of one location share the maximal
date, PostgreSQL's `DISTINCT ON` may keep either of them — the selection is
not determined by the store state. Both date-tied Texas rows are admissible
latest picks, they are different rows with different prices, and the
comparison records built from them differ. -/
theorem claim_C4_tie_break_not_determined :
    IsLatestFor exTieRows "Texas" exTexasA ∧
    IsLatestFor exTieRows "Texas" exTexasB ∧
    exTexasA ≠ exTexasB ∧
    (mkComparison "Texas" exTexasA.pricePerDozen
        exNational.pricePerDozen).currentPrice ≠
      (mkComparison "Texas" exTexasB.pricePerDozen
        exNational.pricePerDozen).currentPrice := by
  refine ⟨?_, ?_, by decide, by decide⟩
  · unfold IsLatestFor
    decide
  · unfold IsLatestFor
    decide

/-- C5: a successful listing returns at most n rows — n the parsed limit,
or 30 when the parameter was omitted — sorted by date descending and
matching the location filter whenever one was supplied. -/
theorem claim_C5_listing_contract (s : Store) (locP limP : String) (n : Int)
    (l : List EggPrice)
    (hn : (limP = "" ∧ n = 30) ∨ atoi? limP = some n)
    (hok : (getPricesHandler locP limP s).1 = .ok l) :
    l.length ≤ n.toNat ∧
    (l.Pairwise fun a b => b.date ≤ a.date) ∧
    ∀ p ∈ l, locP ≠ "" → p.location = locP := by
  have hat : atoi? (if limP = "" then "30" else limP) = some n := by
    rcases hn with ⟨hl, hn30⟩ | hat2
    · rw [if_pos hl, hn30]
      rfl
    · by_cases hl : limP = ""
      · rw [hl] at hat2
        exact Option.noConfusion hat2
      · rw [if_neg hl]
        exact hat2
  obtain ⟨hn0, hl⟩ := getPricesHandler_ok hat hok
  subst hl
  refine ⟨?_, ?_, ?_⟩
  · rw [List.length_take]
    exact min_le_left _ _
  · have hp := List.Pairwise.sublist
      (List.take_sublist n.toNat (sortByDateDesc (queryRows s.rows locP)))
      (pairwise_sortByDateDesc (queryRows s.rows locP))
    exact hp.imp fun h => String.le_iff_toList_le.mpr h
  · intro p hp hne
    have hq : p ∈ queryRows s.rows locP :=
      mem_sortByDateDesc.mp (List.mem_of_mem_take hp)
    unfold queryRows at hq
    rw [if_neg hne] at hq
    exact of_decide_eq_true (List.mem_filter.mp hq).2

/-- Witness for C5 at a filtered one-row listing. -/
theorem claim_C5_witness :
    (atoi? "1" = some 1 ∧
      (getPricesHandler "California" "1" exStore).1 = .ok [exCalifornia]) ∧
    ([exCalifornia].length ≤ (1 : Int).toNat ∧
      ([exCalifornia].Pairwise fun a b => b.date ≤ a.date) ∧
      ∀ p ∈ [exCalifornia], "California" ≠ "" → p.location = "California") :=
  ⟨⟨rfl, rfl⟩, claim_C5_listing_contract exStore "California" "1" 1
    [exCalifornia] (Or.inr rfl) rfl⟩

/-- C6: a supplied limit that does not parse as an integer makes the listing
answer the invalid-parameter client error with no records; the response and
store are independent of the store contents — nothing is queried. -/
theorem claim_C6_bad_limit (s : Store) (locP limP : String)
    (hne : limP ≠ "") (hbad : atoi? limP = none) :
    getPricesHandler locP limP s = (.clientError "Invalid limit parameter", s) := by
  simp only [getPricesHandler]
  rw [if_neg hne, hbad]

/-- Witness for C6 at the §8 scenario limit=abc. -/
theorem claim_C6_witness :
    ("abc" ≠ "" ∧ atoi? "abc" = none) ∧
    getPricesHandler "" "abc" exStore =
      (.clientError "Invalid limit parameter", exStore) :=
  ⟨⟨by decide, rfl⟩, claim_C6_bad_limit exStore "" "abc" (by decide) rfl⟩

/-- C7 fails as stated: the response's created_at is the one decoded from
the request body (the Go zero value, empty, when the field was absent) and
not the server-assigned timestamp that the stored row receives. -/
theorem claim_C7_counterexample :
    (addPriceHandler (some exPayload) true "2024-06-01T12:00:00Z" emptyStore).1 =
      .ok ⟨1, "2024-01-15", "California", 49/20, "Local Market", ""⟩ ∧
    (addPriceHandler (some exPayload) true "2024-06-01T12:00:00Z" emptyStore).2.rows =
      [⟨1, "2024-01-15", "California", 49/20, "Local Market",
        "2024-06-01T12:00:00Z"⟩] ∧
    ("" : String) ≠ "2024-06-01T12:00:00Z" :=
  ⟨rfl, rfl, by decide⟩

/-- C7 (amended): a successful insert returns the submitted date, location,
price and source together with the generated id, but the created_at field
of the response is echoed from the decoded request, while the stored row
carries the server-assigned timestamp. -/
theorem claim_C7_insert_returns_echo (p : EggPrice) (now : String) (s : Store) :
    (addPriceHandler (some p) true now s).1 =
      .ok ⟨s.nextId, p.date, p.location, p.pricePerDozen, p.source, p.createdAt⟩ ∧
    (addPriceHandler (some p) true now s).2.rows =
      s.rows ++ [⟨s.nextId, p.date, p.location, p.pricePerDozen, p.source, now⟩] :=
  ⟨rfl, rfl⟩

/-- C8: the insert rejects with a client error exactly when the body fails
to decode; every decoded payload — p is arbitrary, covering negative prices
and empty locations — is persisted as given with no validation, and a store
write failure is the only other failure, surfaced as an internal error. -/
theorem claim_C8_insert_error_contract (p : EggPrice) (wOk : Bool)
    (now : String) (s : Store) :
    addPriceHandler none wOk now s =
      (.clientError "invalid character in request body", s) ∧
    (addPriceHandler (some p) true now s).1 = .ok { p with id := s.nextId } ∧
    (addPriceHandler (some p) true now s).2.rows =
      s.rows ++ [⟨s.nextId, p.date, p.location, p.pricePerDozen, p.source, now⟩] ∧
    addPriceHandler (some p) false now s = (.serverError "pq: insert failed", s) :=
  ⟨rfl, rfl, rfl, rfl⟩

/-- C9: the three read operations leave the store untouched; a successful
insert appends exactly one observation at the end, keeping every existing
observation in place, and no core operation updates or deletes a row. -/
theorem claim_C9_append_only (s : Store) (locP limP now : String)
    (p : EggPrice) (wOk : Bool) :
    (getPricesHandler locP limP s).2 = s ∧
    (getLocationsHandler s).2 = s ∧
    (getComparisonHandler s).2 = s ∧
    (addPriceHandler (some p) true now s).2.rows =
      s.rows ++ [⟨s.nextId, p.date, p.location, p.pricePerDozen, p.source, now⟩] ∧
    (addPriceHandler (some p) true now s).2.rows.length = s.rows.length + 1 ∧
    (addPriceHandler (some p) true now s).2.rows.take s.rows.length = s.rows ∧
    (addPriceHandler (some p) true now s).2.locs = s.locs ∧
    (addPriceHandler (some p) false now s).2 = s ∧
    (addPriceHandler none wOk now s).2 = s := by
  refine ⟨?_, rfl, rfl, rfl, ?_, ?_, rfl, rfl, rfl⟩
  · simp only [getPricesHandler]
    cases atoi? (if limP = "" then "30" else limP) <;> rfl
  · show (s.rows ++ [_]).length = s.rows.length + 1
    rw [List.length_append]
    rfl
  · show (s.rows ++ [_]).take s.rows.length = s.rows
    exact List.take_left _ _

/-- C10: any limit value that parses as an integer — zero and negatives
included — passes the parameter check and is forwarded to the store query
verbatim: the handler never answers a client error for it, limit 0 yields
an empty success, and a negative limit surfaces as the store-level internal
error. -/
theorem claim_C10_nonpositive_limits_forwarded (s : Store) (locP limP : String)
    (n : Int) (hat : atoi? limP = some n) :
    (getPricesHandler locP limP s).1 =
      dbResultToHttp (dbSelectPrices s.rows locP n) ∧
    (∀ msg, (getPricesHandler locP limP s).1 ≠ .clientError msg) ∧
    (getPricesHandler locP "0" s).1 = .ok [] ∧
    (getPricesHandler locP "-1" s).1 =
      .serverError "pq: LIMIT must not be negative" := by
  have hne : limP ≠ "" := by
    intro h
    rw [h] at hat
    exact Option.noConfusion hat
  have hfwd : (getPricesHandler locP limP s).1 =
      dbResultToHttp (dbSelectPrices s.rows locP n) := by
    simp only [getPricesHandler]
    rw [if_neg hne, hat]
  refine ⟨hfwd, ?_, rfl, rfl⟩
  intro msg
  rw [hfwd]
  unfold dbSelectPrices
  by_cases hneg : n < 0
  · rw [if_pos hneg]
    exact fun h => HttpResult.noConfusion h
  · rw [if_neg hneg]
    exact fun h => HttpResult.noConfusion h

/-- Witness for C10 at limit −1. -/
theorem claim_C10_witness :
    atoi? "-1" = some (-1) ∧
    ((getPricesHandler "" "-1" exStore).1 =
        dbResultToHttp (dbSelectPrices exStore.rows "" (-1)) ∧
      (∀ msg, (getPricesHandler "" "-1" exStore).1 ≠ .clientError msg) ∧
      (getPricesHandler "" "0" exStore).1 = .ok [] ∧
      (getPricesHandler "" "-1" exStore).1 =
        .serverError "pq: LIMIT must not be negative") :=
  ⟨rfl, claim_C10_nonpositive_limits_forwarded exStore "" "-1" (-1) rfl⟩

end EggTracker
